import Mathlib

/-!
Verification of the game-session state machine of the AI-Imposter backend
(`backend/app/services/game_service.py`), as a shallow embedding.

The Firestore game document is modelled by `GameState` (together with its two
subcollections `pending_messages` and `messages`); each service operation
becomes a Lean function on `Option GameState` (`none` models a missing
document) returning `Except String` — an `Except.error msg` models
`raise ValueError(msg)`.  Wall-clock reads are passed in as a `now : Nat`
parameter, random draws (`random.choice` of a question, uuid generation for AI
players, nickname generation) as explicit parameters.  Fields of the document
that no operation ever reads back (`ttl`, `createdAt`, `lastRoundResult`,
`impostorInfo`, `readyPlayerIds`, `privacy`) and the best-effort archival write
are omitted from the model.
-/

namespace AIImposter

/-- An entry of the `players` array of the game document.  Missing
`isEliminated` keys in the source are falsy, modelled as `false`. -/
structure Player where
  uid : String
  gameDisplayName : String
  isImpostor : Bool
  isEliminated : Bool
deriving DecidableEq

/-- A vote record appended to the `votes` array by `_submit_vote_transaction`. -/
structure Vote where
  voterId : String
  targetId : String
  round : Nat
deriving DecidableEq

/-- An entry of the `rounds` array: one `{round, question}` object per round. -/
structure RoundEntry where
  round : Nat
  question : String
deriving DecidableEq

/-- A staged answer in the `pending_messages` subcollection (both
`submit_answer` and `_enqueue_ai_answers` set `authorId` and `senderId` to the
same uid). -/
structure PendingMsg where
  authorId : String
  senderId : String
  senderName : String
  content : String
  roundNumber : Nat
  submittedAt : Nat
deriving DecidableEq

/-- A revealed message in the permanent `messages` subcollection, as
normalized by `tally_answers`. -/
structure Message where
  text : String
  senderId : String
  senderName : String
  roundNumber : Nat
  timestamp : Nat
deriving DecidableEq

/-- The game document together with its two subcollections.  `status` is one
of `"waiting"`, `"in_progress"`, `"finished"`; `roundPhase` one of
`"ANSWER_SUBMISSION"`, `"VOTING"`, `"GAME_ENDED"` (absent before start,
modelled as `""`). -/
structure GameState where
  hostId : String
  status : String
  roundPhase : String
  language : String
  aiCount : Nat
  currentRound : Nat
  players : List Player
  rounds : List RoundEntry
  votes : List Vote
  pendingMessages : List PendingMsg
  messages : List Message
  roundEndTime : Option Nat
  winner : Option String
deriving DecidableEq

/-- The uids of a player list (used for participant membership checks). -/
def playerUids (players : List Player) : List String :=
  players.map Player.uid

/-- `join_game`: validates and appends a player (the `ArrayUnion` append
cannot hit an identical existing element because duplicate uids are
rejected first). -/
def join_game (game : Option GameState) (userUid : String) :
    Except String GameState :=
  match game with
  | none => .error "Game not found."
  | some g =>
    if g.status ≠ "waiting" then .error "This game is not waiting for players."
    else if 4 ≤ g.players.length then .error "This game is full."
    else if g.players.any (fun p => p.uid == userUid) then
      .error "You have already joined this game."
    else .ok { g with players := g.players ++ [⟨userUid, "", false, false⟩] }

/-- `start_game`.  `aiUid i` models the random uuid `f"ai_{uuid.uuid4()}"` of
the i-th synthesized AI player, `names` the generated unique nicknames
(`nicknames[i]` assigned positionally), `question` the random round-1 question
draw and `now` the clock read.  The source also shuffles the roster order
(`random.shuffle`); the model keeps the pre-shuffle order (humans then AI
players), one of the possible permutations. -/
def start_game (game : Option GameState) (userUid : String)
    (aiUid : Nat → String) (names : List String) (now : Nat)
    (question : String) : Except String GameState :=
  match game with
  | none => .error "Game not found."
  | some g =>
    if g.hostId ≠ userUid then .error "Only the host can start the game."
    else if g.status ≠ "waiting" then
      .error "The game has already started or is finished."
    else
      let humans := g.players.map (fun p => { p with isImpostor := false })
      let ais := (List.range g.aiCount).map
        (fun i => (⟨aiUid i, "", true, false⟩ : Player))
      let participants := humans ++ ais
      let named := participants.mapIdx
        (fun i p => { p with gameDisplayName := names.getD i "" })
      .ok { g with
        players := named
        status := "in_progress"
        roundPhase := "ANSWER_SUBMISSION"
        currentRound := 1
        roundEndTime := some (now + 90)
        rounds := [⟨1, question⟩] }

/-- `submit_answer`: validates and stages one answer record in
`pending_messages` (`now` models the `SERVER_TIMESTAMP` sentinel). -/
def submit_answer (game : Option GameState) (userUid answer : String)
    (now : Nat) : Except String GameState :=
  match game with
  | none => .error "Game not found."
  | some g =>
    if g.status ≠ "in_progress" then
      .error "This game is not currently in progress."
    else if g.roundPhase ≠ "ANSWER_SUBMISSION" then
      .error "It is not currently time to submit answers."
    else if ¬ g.players.any (fun p => p.uid == userUid) then
      .error "You are not a player in this game."
    else if g.pendingMessages.any
        (fun m => m.authorId == userUid && m.roundNumber == g.currentRound) then
      .error "You have already submitted an answer for this round."
    else
      match g.players.find? (fun p => p.uid == userUid) with
      | none => .error "Player not found in this game."
      | some p =>
        .ok { g with pendingMessages := g.pendingMessages ++
          [⟨userUid, userUid, p.gameDisplayName, answer, g.currentRound, now⟩] }

/-- The normalization `tally_answers` applies when it copies a staged answer
into the permanent message log (`senderId or authorId` is Python's truthiness
fallback). -/
def normalizeMsg (m : PendingMsg) : Message :=
  { text := m.content
    senderId := if m.senderId ≠ "" then m.senderId else m.authorId
    senderName := m.senderName
    roundNumber := m.roundNumber
    timestamp := m.submittedAt }

/-- The state written by `tally_answers` after the precondition checks pass:
every staged record is copied (normalized) into `messages` and deleted from
staging, then round 1 advances to round 2 ANSWER_SUBMISSION while any later
round advances to VOTING with the timer cleared. -/
def tallyAnswersAdvance (g : GameState) (now : Nat) (question : String) :
    GameState :=
  if g.currentRound = 1 then
    { g with
      messages := g.messages ++ g.pendingMessages.map normalizeMsg
      pendingMessages := []
      roundPhase := "ANSWER_SUBMISSION"
      currentRound := g.currentRound + 1
      roundEndTime := some (now + 90)
      rounds := g.rounds ++ [⟨g.currentRound + 1, question⟩] }
  else
    { g with
      messages := g.messages ++ g.pendingMessages.map normalizeMsg
      pendingMessages := []
      roundPhase := "VOTING"
      roundEndTime := none }

/-- `tally_answers`.  `now` models the clock read, `question` the random
question draw for round 2 when applicable. -/
def tally_answers (game : Option GameState) (now : Nat) (question : String) :
    Except String GameState :=
  match game with
  | none => .error "Game not found."
  | some g =>
    if g.status ≠ "in_progress" then
      .error "This game is not currently in progress."
    else if g.roundPhase ≠ "ANSWER_SUBMISSION" then .ok g
    else
      match g.roundEndTime with
      | some t =>
        if now < t then .error "Answer submission time has not ended yet."
        else .ok (tallyAnswersAdvance g now question)
      | none => .ok (tallyAnswersAdvance g now question)

/-- The votes of the current round (`v.get("round") == current_round`). -/
def votesThisRound (g : GameState) : List Vote :=
  g.votes.filter (fun v => v.round == g.currentRound)

/-- Number of votes naming `target` (the `Counter` entry for `target`). -/
def voteCount (vs : List Vote) (target : String) : Nat :=
  (vs.filter (fun v => v.targetId == target)).length

/-- The distinct vote targets (the keys of the Python `Counter`). -/
def voteTargets (vs : List Vote) : List String :=
  (vs.map Vote.targetId).dedup

/-- The largest per-target vote count (`most_common(2)[0][1]`). -/
def maxVoteCount (vs : List Vote) : Nat :=
  ((voteTargets vs).map (voteCount vs)).foldr max 0

/-- The targets attaining the largest count. -/
def topTargets (vs : List Vote) : List String :=
  (voteTargets vs).filter (fun t => voteCount vs t == maxVoteCount vs)

/-- The uid `tally_votes` eliminates, if any: with at least one vote cast,
`most_votes = vote_counts.most_common(2)` and the source eliminates
`most_votes[0][0]` iff `len(most_votes) == 1 or most_votes[0][1] >
most_votes[1][1]`, i.e. iff there is a single distinct target or a unique
target attains the maximal count. -/
def eliminationTarget (vs : List Vote) : Option String :=
  if vs.isEmpty then none
  else if (voteTargets vs).length = 1 ∨ (topTargets vs).length = 1 then
    (topTargets vs).head?
  else none

/-- The source's elimination loop: walks `players` in order and sets
`isEliminated = True` on the first player whose uid matches, then breaks. -/
def markFirstEliminated : List Player → String → List Player
  | [], _ => []
  | p :: ps, uid =>
    if p.uid = uid then { p with isEliminated := true } :: ps
    else p :: markFirstEliminated ps uid

/-- The players array after `tally_votes` applies the elimination rule. -/
def elimPlayers (g : GameState) : List Player :=
  match eliminationTarget (votesThisRound g) with
  | some uid => markFirstEliminated g.players uid
  | none => g.players

/-- The non-eliminated impostors of a roster (`active_impostors`). -/
def activeImpostors (players : List Player) : List Player :=
  (players.filter (fun p => !p.isEliminated)).filter (fun p => p.isImpostor)

/-- `tally_votes`: counts the current round's votes, applies the elimination
rule, then evaluates the win conditions in order (no surviving impostors →
humans win; round limit reached → AI win; otherwise advance one round).
`now` models the clock read and `question` the next-round question draw; the
`lastRoundResult` summary and the best-effort archival write are omitted. -/
def tally_votes (game : Option GameState) (now : Nat) (question : String) :
    Except String GameState :=
  match game with
  | none => .error "Game not found."
  | some g =>
    if g.status ≠ "in_progress" then
      .error "This game is not currently in progress."
    else if g.roundPhase ≠ "VOTING" then .ok g
    else if (activeImpostors (elimPlayers g)).length = 0 then
      .ok { g with players := elimPlayers g, status := "finished"
                   roundPhase := "GAME_ENDED", winner := some "humans" }
    else if 3 ≤ g.currentRound then
      .ok { g with players := elimPlayers g, status := "finished"
                   roundPhase := "GAME_ENDED", winner := some "ai" }
    else
      .ok { g with players := elimPlayers g
                   currentRound := g.currentRound + 1
                   roundPhase := "ANSWER_SUBMISSION"
                   roundEndTime := some (now + 90)
                   rounds := g.rounds ++ [⟨g.currentRound + 1, question⟩] }

/-- `total_required_votes`: the players that are neither eliminated nor
impostors. -/
def requiredPlayers (players : List Player) : List Player :=
  players.filter (fun p => !p.isEliminated && !p.isImpostor)

/-- `total_required_votes = sum(1 for p in players if not p.get("isEliminated")
and not p.get("isImpostor"))`. -/
def requiredVotes (players : List Player) : Nat :=
  (requiredPlayers players).length

/-- The body of `_submit_vote_transaction`: validates, appends the vote (the
`ArrayUnion` append cannot hit an identical existing element because a
duplicate vote by the same voter in the same round is rejected first), and
returns the "trigger tally" boolean computed from the snapshot plus the vote
just added. -/
def submitVoteTransaction (game : Option GameState) (voterUid targetUid : String) :
    Except String (GameState × Bool) :=
  match game with
  | none => .error "Game not found."
  | some g =>
    if g.status ≠ "in_progress" then
      .error "This game is not currently in progress."
    else if g.roundPhase ≠ "VOTING" then
      .error "It is not currently time to vote."
    else if voterUid = targetUid then .error "You cannot vote for yourself."
    else if voterUid ∉ playerUids g.players then
      .error "You are not a player in this game."
    else if targetUid ∉ playerUids g.players then
      .error "The targeted player is not in this game."
    else if g.votes.any
        (fun v => v.voterId == voterUid && v.round == g.currentRound) then
      .error "You have already voted in this round."
    else
      .ok ({ g with votes := g.votes ++ [⟨voterUid, targetUid, g.currentRound⟩] },
        decide (0 < requiredVotes g.players) &&
        decide (requiredVotes g.players ≤ (votesThisRound g).length + 1))

/-- What the store's transactional execution of `_submit_vote_transaction`
produced, as seen by `submit_vote`'s `try` block: a committed result, a
`ValueError` raised by the body, or `FailedPrecondition`/`Aborted` after the
store exhausted its conflict retries. -/
inductive TxAttempt (α : Type) where
  | committed (a : α)
  | bodyError (msg : String)
  | retriesExhausted
deriving DecidableEq

/-- The message `submit_vote` raises when the store exhausted its conflict
retries. -/
def conflictErrorMessage : String :=
  "Unable to submit vote due to high activity. Please try again."

/-- The `except` clauses of `submit_vote`: validation `ValueError`s are
re-raised as-is, conflict-retry exhaustion becomes the fixed
`conflictErrorMessage` error. -/
def submitVoteOutcome : TxAttempt (GameState × Bool) →
    Except String (GameState × Bool)
  | .committed a => .ok a
  | .bodyError msg => .error msg
  | .retriesExhausted => .error conflictErrorMessage

/-- `AI_PLACEHOLDER_TEMPLATE.format(round=round_number)`: the fixed fallback
answer used when AI generation fails. -/
def aiPlaceholder (round : Nat) : String :=
  "This is a template message for testing round " ++ toString round ++ "."

/-- The per-player `try/except` of `_enqueue_ai_answers`: a failing generation
call is replaced by the fallback, never propagated.  `genResult` is the
outcome of the (external, fallible) `ai_service.generate_ai_response` call. -/
def aiAnswerText (genResult : Except String String) (roundNumber : Nat) :
    String :=
  match genResult with
  | .ok t => t
  | .error _ => aiPlaceholder roundNumber

/-- The staged message `_enqueue_ai_answers` batches for one AI player
(`submittedAt` is the `SERVER_TIMESTAMP` sentinel, modelled as 0). -/
def mkPendingAiMsg (ai : Player) (text : String) (roundNumber : Nat) :
    PendingMsg :=
  { authorId := ai.uid, senderId := ai.uid, senderName := ai.gameDisplayName
    content := text, roundNumber := roundNumber, submittedAt := 0 }

/-- The loop of `_enqueue_ai_answers` from loop index `i` on. -/
def enqueueAiFrom (gen : Nat → Except String String) (roundNumber : Nat) :
    Nat → List Player → List PendingMsg
  | _, [] => []
  | i, ai :: rest =>
    mkPendingAiMsg ai (aiAnswerText (gen i) roundNumber) roundNumber ::
      enqueueAiFrom gen roundNumber (i + 1) rest

/-- The batch of staged messages `_enqueue_ai_answers` commits: one per AI
player, where `gen i` is the outcome of the generation call for the i-th AI
player.  The function is total — no outcome of `gen` makes it fail. -/
def enqueue_ai_answers (gen : Nat → Except String String)
    (aiPlayers : List Player) (roundNumber : Nat) : List PendingMsg :=
  enqueueAiFrom gen roundNumber 0 aiPlayers

/-- A serialized sequence of `_submit_vote_transaction` commits: applies each
(voter, target) pair in order, collecting the per-transaction "trigger tally"
signals, and fails if any transaction raises. -/
def runVotes : GameState → List (String × String) →
    Except String (GameState × List Bool)
  | g, [] => .ok (g, [])
  | g, (v, t) :: rest =>
    match submitVoteTransaction (some g) v t with
    | .error e => .error e
    | .ok (g', flag) =>
      match runVotes g' rest with
      | .error e => .error e
      | .ok (g'', flags) => .ok (g'', flag :: flags)

/-- One invocation of a service operation on the game document, with its
environment inputs (clock reads, random draws, caller-supplied arguments). -/
inductive GameOp where
  | joinOp (userUid : String)
  | startOp (userUid : String) (aiUid : Nat → String) (names : List String)
      (now : Nat) (question : String)
  | submitAnswerOp (userUid answer : String) (now : Nat)
  | tallyAnswersOp (now : Nat) (question : String)
  | tallyVotesOp (now : Nat) (question : String)
  | submitVoteOp (voterUid targetUid : String)

/-- The effect of one operation on an existing game document (`submitVoteOp`
keeps the committed state, dropping the trigger signal). -/
def applyOp (g : GameState) : GameOp → Except String GameState
  | .joinOp u => join_game (some g) u
  | .startOp u a n t q => start_game (some g) u a n t q
  | .submitAnswerOp u ans t => submit_answer (some g) u ans t
  | .tallyAnswersOp t q => tally_answers (some g) t q
  | .tallyVotesOp t q => tally_votes (some g) t q
  | .submitVoteOp v tgt => (submitVoteTransaction (some g) v tgt).map Prod.fst

/-- States reachable from `g0` by successful operations. -/
inductive Reachable (g0 : GameState) : GameState → Prop
  | refl : Reachable g0 g0
  | step {g g' : GameState} (op : GameOp) :
      Reachable g0 g → applyOp g op = .ok g' → Reachable g0 g'

/-- The elimination rule as the spec words it: `t` is the sole top vote
target — every other distinct target has strictly fewer votes (vacuous when
`t` is the only distinct target). -/
def soleTopTarget (vs : List Vote) (t : String) : Prop :=
  t ∈ voteTargets vs ∧
    ∀ u ∈ voteTargets vs, u ≠ t → voteCount vs u < voteCount vs t

instance (vs : List Vote) (t : String) : Decidable (soleTopTarget vs t) := by
  unfold soleTopTarget; infer_instance

/-! ### Concrete states used by the witnesses -/

/-- A three-player game in the VOTING phase of round 2 (one AI impostor). -/
def votingGame : GameState :=
  { hostId := "h", status := "in_progress", roundPhase := "VOTING"
    language := "en", aiCount := 1, currentRound := 2
    players := [⟨"h", "Walrus", false, false⟩, ⟨"p2", "Otter", false, false⟩,
                ⟨"ai1", "Fox", true, false⟩]
    rounds := [⟨1, "q1"⟩, ⟨2, "q2"⟩]
    votes := [], pendingMessages := [], messages := []
    roundEndTime := none, winner := none }

/-- The same game in ANSWER_SUBMISSION of round 2, with one staged answer and
a timer that expired at instant 10. -/
def answeringGame : GameState :=
  { votingGame with
    roundPhase := "ANSWER_SUBMISSION"
    pendingMessages := [⟨"h", "h", "Walrus", "hello", 2, 5⟩]
    roundEndTime := some 10 }

/-- A round-3 VOTING game whose sole impostor is about to be voted out. -/
def round3Game : GameState :=
  { votingGame with
    currentRound := 3
    rounds := [⟨1, "q1"⟩, ⟨2, "q2"⟩, ⟨3, "q3"⟩]
    votes := [⟨"h", "ai1", 3⟩, ⟨"p2", "ai1", 3⟩] }

/-- The disjunction of `_submit_vote_transaction`'s precondition violations
(for an existing session). -/
def submitVoteInvalid (g : GameState) (v t : String) : Prop :=
  g.status ≠ "in_progress" ∨ g.roundPhase ≠ "VOTING" ∨ v = t ∨
  v ∉ playerUids g.players ∨ t ∉ playerUids g.players ∨
  ∃ x ∈ g.votes, x.voterId = v ∧ x.round = g.currentRound

instance (g : GameState) (v t : String) : Decidable (submitVoteInvalid g v t) := by
  unfold submitVoteInvalid; infer_instance

/-- The VOTING game of `votingGame` with an additional eliminated human `e`;
the active human `h` has already voted this round, the other active human
`p2` has not. -/
def elimVoterGame : GameState :=
  { votingGame with
    players := [⟨"h", "Walrus", false, false⟩, ⟨"p2", "Otter", false, false⟩,
                ⟨"e", "Eel", false, true⟩]
    votes := [⟨"h", "e", 2⟩] }

/-- A VOTING game whose round-2 votes are {ai1: 2, h: 1} — a strict
plurality for ai1. -/
def majorityGame : GameState :=
  { votingGame with
    votes := [⟨"h", "ai1", 2⟩, ⟨"p2", "ai1", 2⟩, ⟨"ai1", "h", 2⟩] }

/-- The bookkeeping invariant of a started session: the session is no longer
in the lobby, and the `rounds` list has exactly one entry per round. -/
def roundsInvariant (g : GameState) : Prop :=
  g.status ≠ "waiting" ∧ g.rounds.length = g.currentRound

/-- A two-player lobby (host plus one configured AI) still in WAITING. -/
def preGame : GameState :=
  { hostId := "h", status := "waiting", roundPhase := ""
    language := "en", aiCount := 1, currentRound := 0
    players := [⟨"h", "", false, false⟩]
    rounds := [], votes := [], pendingMessages := [], messages := []
    roundEndTime := none, winner := none }

/-- The state `start_game` produces from `preGame` with uuid draw "ai9",
nicknames ["A", "B"], clock 0 and question "q1". -/
def startedGame : GameState :=
  { preGame with
    players := [⟨"h", "A", false, false⟩, ⟨"ai9", "B", true, false⟩]
    status := "in_progress", roundPhase := "ANSWER_SUBMISSION"
    currentRound := 1, roundEndTime := some 90, rounds := [⟨1, "q1"⟩] }

/-! ### Helper lemmas -/

theorem enqueueAiFrom_length (gen : Nat → Except String String) (r : Nat) :
    ∀ (ps : List Player) (k : Nat), (enqueueAiFrom gen r k ps).length = ps.length := by
  intro ps
  induction ps with
  | nil => intro k; rfl
  | cons ai rest ih => intro k; simp [enqueueAiFrom, ih]

theorem enqueueAiFrom_get? (gen : Nat → Except String String) (r : Nat) :
    ∀ (ps : List Player) (k i : Nat),
      (enqueueAiFrom gen r k ps).get? i =
        (ps.get? i).map (fun ai => mkPendingAiMsg ai (aiAnswerText (gen (k + i)) r) r) := by
  intro ps
  induction ps with
  | nil => intro k i; rfl
  | cons ai rest ih =>
    intro k i
    cases i with
    | zero => rfl
    | succ j =>
      have h := ih (k + 1) j
      simpa [enqueueAiFrom, Nat.add_assoc, Nat.add_comm 1 j] using h

/-! ### Claims -/

/-- C6: for a session with status IN_PROGRESS, `tally_answers` called outside
ANSWER_SUBMISSION and `tally_votes` called outside VOTING both return
successfully with the state untouched — a pure no-op, so a second racing call
after the phase advanced is harmless. -/
theorem noop_tally_idempotent (g : GameState) (now : Nat) (q : String)
    (hst : g.status = "in_progress") :
    (g.roundPhase ≠ "ANSWER_SUBMISSION" → tally_answers (some g) now q = .ok g) ∧
    (g.roundPhase ≠ "VOTING" → tally_votes (some g) now q = .ok g) := by
  constructor
  · intro hph
    simp [tally_answers, hst, hph]
  · intro hph
    simp [tally_votes, hst, hph]

theorem noop_tally_idempotent_witness :
    tally_answers (some votingGame) 0 "q" = .ok votingGame ∧
    tally_votes (some answeringGame) 0 "q" = .ok answeringGame :=
  ⟨(noop_tally_idempotent votingGame 0 "q" rfl).1 (by decide),
   (noop_tally_idempotent answeringGame 0 "q" rfl).2 (by decide)⟩

/-- C9: the AI answer batch always contains one staged message per AI player
no matter which generation calls fail; the i-th message depends only on the
i-th player's generation outcome (so one player's failure cannot disturb the
others), and a failed call yields exactly the fixed fallback text. -/
theorem ai_failure_isolation (gen : Nat → Except String String)
    (aiPlayers : List Player) (r : Nat) :
    (enqueue_ai_answers gen aiPlayers r).length = aiPlayers.length ∧
    (∀ i : Nat, (enqueue_ai_answers gen aiPlayers r).get? i =
      (aiPlayers.get? i).map
        (fun ai => mkPendingAiMsg ai (aiAnswerText (gen i) r) r)) ∧
    (∀ e, aiAnswerText (.error e) r = aiPlaceholder r) := by
  refine ⟨enqueueAiFrom_length gen r aiPlayers 0, ?_, fun e => rfl⟩
  intro i
  simpa using enqueueAiFrom_get? gen r aiPlayers 0 i

/-- C4: conflict-retry exhaustion surfaces from `submit_vote` as the fixed
"try again" conflict error, and no validation (`InvalidState`) error raised
by `_submit_vote_transaction` ever carries that message — the caller can tell
the two apart. -/
theorem conflict_error_distinct :
    (submitVoteOutcome .retriesExhausted = .error conflictErrorMessage) ∧
    (∀ a, submitVoteOutcome (.committed a) = .ok a) ∧
    (∀ game v t msg, submitVoteTransaction game v t = .error msg →
      submitVoteOutcome (.bodyError msg) = .error msg ∧
        msg ≠ conflictErrorMessage) := by
  refine ⟨rfl, fun a => rfl, ?_⟩
  intro game v t msg h
  refine ⟨rfl, ?_⟩
  cases game with
  | none =>
    simp only [submitVoteTransaction] at h
    cases h
    decide
  | some g =>
    simp only [submitVoteTransaction] at h
    split at h
    · cases h; decide
    · split at h
      · cases h; decide
      · split at h
        · cases h; decide
        · split at h
          · cases h; decide
          · split at h
            · cases h; decide
            · split at h
              · cases h; decide
              · cases h

theorem conflict_error_distinct_witness :
    submitVoteOutcome (.bodyError "Game not found.") = .error "Game not found." ∧
    "Game not found." ≠ conflictErrorMessage :=
  conflict_error_distinct.2.2 none "a" "b" "Game not found." rfl

/-- C5: when the session is IN_PROGRESS, in ANSWER_SUBMISSION, and the round
timer has elapsed, `tally_answers` moves every staged answer (normalized) into
the permanent message log and clears the staging area; then round 1 advances
to round 2 ANSWER_SUBMISSION with the new question and a fresh timer, while
any later round advances to VOTING with the timer cleared. -/
theorem tally_answers_effect (g : GameState) (now : Nat) (q : String)
    (hst : g.status = "in_progress") (hph : g.roundPhase = "ANSWER_SUBMISSION")
    (htime : ∀ t, g.roundEndTime = some t → t ≤ now) :
    ∃ g', tally_answers (some g) now q = .ok g' ∧
      g'.messages = g.messages ++ g.pendingMessages.map normalizeMsg ∧
      g'.pendingMessages = [] ∧
      (g.currentRound = 1 →
        g'.currentRound = 2 ∧ g'.roundPhase = "ANSWER_SUBMISSION" ∧
        g'.rounds = g.rounds ++ [⟨2, q⟩] ∧ g'.roundEndTime = some (now + 90)) ∧
      (g.currentRound ≠ 1 →
        g'.roundPhase = "VOTING" ∧ g'.roundEndTime = none ∧
        g'.currentRound = g.currentRound ∧ g'.rounds = g.rounds) := by
  refine ⟨tallyAnswersAdvance g now q, ?_, ?_, ?_, ?_, ?_⟩
  · simp only [tally_answers, hst, hph]
    cases hrt : g.roundEndTime with
    | none => simp
    | some t =>
      have : ¬ now < t := by
        have := htime t hrt
        omega
      simp [this]
  · unfold tallyAnswersAdvance
    split <;> rfl
  · unfold tallyAnswersAdvance
    split <;> rfl
  · intro h1
    simp [tallyAnswersAdvance, h1]
  · intro h1
    simp [tallyAnswersAdvance, h1]

theorem tally_answers_effect_witness :
    ∃ g', tally_answers (some answeringGame) 20 "q3" = .ok g' ∧
      g'.messages = answeringGame.messages ++
        answeringGame.pendingMessages.map normalizeMsg ∧
      g'.pendingMessages = [] ∧
      (answeringGame.currentRound = 1 →
        g'.currentRound = 2 ∧ g'.roundPhase = "ANSWER_SUBMISSION" ∧
        g'.rounds = answeringGame.rounds ++ [⟨2, "q3"⟩] ∧
        g'.roundEndTime = some (20 + 90)) ∧
      (answeringGame.currentRound ≠ 1 →
        g'.roundPhase = "VOTING" ∧ g'.roundEndTime = none ∧
        g'.currentRound = answeringGame.currentRound ∧
        g'.rounds = answeringGame.rounds) :=
  tally_answers_effect answeringGame 20 "q3" rfl rfl
    (by intro t ht; simp [answeringGame, votingGame] at ht; omega)

theorem tally_votes_reduce (g : GameState) (now : Nat) (q : String)
    (hst : g.status = "in_progress") (hph : g.roundPhase = "VOTING") :
    tally_votes (some g) now q =
      (if (activeImpostors (elimPlayers g)).length = 0 then
        .ok { g with players := elimPlayers g, status := "finished"
                     roundPhase := "GAME_ENDED", winner := some "humans" }
      else if 3 ≤ g.currentRound then
        .ok { g with players := elimPlayers g, status := "finished"
                     roundPhase := "GAME_ENDED", winner := some "ai" }
      else
        .ok { g with players := elimPlayers g
                     currentRound := g.currentRound + 1
                     roundPhase := "ANSWER_SUBMISSION"
                     roundEndTime := some (now + 90)
                     rounds := g.rounds ++ [⟨g.currentRound + 1, q⟩] }) := by
  simp only [tally_votes]
  rw [if_neg (by simp [hst]), if_neg (by simp [hph])]

theorem tally_votes_players (g : GameState) (now : Nat) (q : String)
    (hst : g.status = "in_progress") (hph : g.roundPhase = "VOTING") :
    ∃ g', tally_votes (some g) now q = .ok g' ∧ g'.players = elimPlayers g := by
  rw [tally_votes_reduce g now q hst hph]
  by_cases h0 : (activeImpostors (elimPlayers g)).length = 0
  · rw [if_pos h0]; exact ⟨_, rfl, rfl⟩
  · rw [if_neg h0]
    by_cases h3 : 3 ≤ g.currentRound
    · rw [if_pos h3]; exact ⟨_, rfl, rfl⟩
    · rw [if_neg h3]; exact ⟨_, rfl, rfl⟩

/-- C3: after the elimination rule is applied, `tally_votes` checks the win
conditions in order — no active impostors → winner humans (terminal);
otherwise round ≥ 3 → winner ai (terminal); otherwise advance one round into
ANSWER_SUBMISSION.  The elimination check precedes the round-limit check. -/
theorem win_order (g : GameState) (now : Nat) (q : String)
    (hst : g.status = "in_progress") (hph : g.roundPhase = "VOTING") :
    ∃ g', tally_votes (some g) now q = .ok g' ∧
      g'.players = elimPlayers g ∧
      (if (activeImpostors (elimPlayers g)).length = 0 then
        g'.winner = some "humans" ∧ g'.status = "finished" ∧
          g'.roundPhase = "GAME_ENDED"
      else if 3 ≤ g.currentRound then
        g'.winner = some "ai" ∧ g'.status = "finished" ∧
          g'.roundPhase = "GAME_ENDED"
      else
        g'.winner = g.winner ∧ g'.status = "in_progress" ∧
          g'.roundPhase = "ANSWER_SUBMISSION" ∧
          g'.currentRound = g.currentRound + 1) := by
  have hguard := tally_votes_reduce g now q hst hph
  by_cases h0 : (activeImpostors (elimPlayers g)).length = 0
  · rw [hguard, if_pos h0]
    exact ⟨_, rfl, rfl, by simp [h0]⟩
  · by_cases h3 : 3 ≤ g.currentRound
    · rw [hguard, if_neg h0, if_pos h3]
      exact ⟨_, rfl, rfl, by simp [h0, h3]⟩
    · rw [hguard, if_neg h0, if_neg h3]
      exact ⟨_, rfl, rfl, by simp [h0, h3, hst]⟩

theorem win_order_witness :
    ∃ g', tally_votes (some round3Game) 0 "q" = .ok g' ∧
      g'.winner = some "humans" ∧ 3 ≤ round3Game.currentRound := by
  obtain ⟨g', hrun, _, hcase⟩ := win_order round3Game 0 "q" rfl rfl
  rw [if_pos (by decide)] at hcase
  exact ⟨g', hrun, hcase.1, by decide⟩

theorem submitVoteTransaction_ok_not_invalid (g : GameState) (v t : String)
    (pr : GameState × Bool) (h : submitVoteTransaction (some g) v t = .ok pr) :
    ¬ submitVoteInvalid g v t := by
  simp only [submitVoteTransaction] at h
  split at h
  next hc => cases h
  next hc1 =>
    split at h
    next hc => cases h
    next hc2 =>
      split at h
      next hc => cases h
      next hc3 =>
        split at h
        next hc => cases h
        next hc4 =>
          split at h
          next hc => cases h
          next hc5 =>
            split at h
            next hc => cases h
            next hc6 =>
              simp only [submitVoteInvalid, not_or]
              refine ⟨hc1, hc2, hc3, hc4, hc5, ?_⟩
              intro hex
              apply hc6
              rw [List.any_eq_true]
              obtain ⟨x, hx, hv, hr⟩ := hex
              exact ⟨x, hx, by simp [hv, hr]⟩

theorem submitVoteTransaction_not_invalid_ok (g : GameState) (v t : String)
    (hn : ¬ submitVoteInvalid g v t) :
    submitVoteTransaction (some g) v t =
      .ok ({ g with votes := g.votes ++ [⟨v, t, g.currentRound⟩] },
        decide (0 < requiredVotes g.players) &&
        decide (requiredVotes g.players ≤ (votesThisRound g).length + 1)) := by
  simp only [submitVoteInvalid, not_or, ne_eq, not_not] at hn
  obtain ⟨h1, h2, h3, h4, h5, h6⟩ := hn
  have hfa : g.votes.any
      (fun x => x.voterId == v && x.round == g.currentRound) = false := by
    rw [List.any_eq_false]
    intro x hx
    simp only [Bool.and_eq_true, beq_iff_eq, not_and]
    intro hv hr
    exact h6 ⟨x, hx, hv, hr⟩
  simp [submitVoteTransaction, h1, h2, h3, h4, h5, hfa]

/-- C7: `_submit_vote_transaction` raises iff the session is missing or one of
the listed preconditions is violated (wrong status, wrong phase, self-vote,
voter/target not a participant, or the voter already voted this round — so a
second vote by the same voter in the same round always fails); otherwise it
appends exactly the one vote record `{voterId, targetId, round=currentRound}`. -/
theorem submit_vote_raises_iff (g : GameState) (v t : String) :
    ((∃ e, submitVoteTransaction (some g) v t = .error e) ↔
      submitVoteInvalid g v t) ∧
    (¬ submitVoteInvalid g v t → ∃ flag,
      submitVoteTransaction (some g) v t =
        .ok ({ g with votes := g.votes ++ [⟨v, t, g.currentRound⟩] }, flag)) ∧
    submitVoteTransaction none v t = .error "Game not found." := by
  refine ⟨⟨?_, ?_⟩, ?_, rfl⟩
  · rintro ⟨e, he⟩
    by_contra hn
    rw [submitVoteTransaction_not_invalid_ok g v t hn] at he
    cases he
  · intro hinv
    cases hres : submitVoteTransaction (some g) v t with
    | error e => exact ⟨e, rfl⟩
    | ok pr => exact absurd hinv (submitVoteTransaction_ok_not_invalid g v t pr hres)
  · intro hn
    exact ⟨_, submitVoteTransaction_not_invalid_ok g v t hn⟩

theorem submit_vote_raises_iff_witness :
    ∃ flag, submitVoteTransaction (some votingGame) "h" "ai1" =
      .ok ({ votingGame with
        votes := votingGame.votes ++ [⟨"h", "ai1", votingGame.currentRound⟩] },
        flag) :=
  (submit_vote_raises_iff votingGame "h" "ai1").2.1 (by decide)

theorem submitVoteTransaction_step (g : GameState) (v t : String)
    (hst : g.status = "in_progress") (hph : g.roundPhase = "VOTING")
    (hv : v ∈ playerUids g.players) (ht : t ∈ playerUids g.players)
    (hne : v ≠ t)
    (hnv : ∀ x ∈ g.votes, x.round = g.currentRound → x.voterId ≠ v) :
    submitVoteTransaction (some g) v t =
      .ok ({ g with votes := g.votes ++ [⟨v, t, g.currentRound⟩] },
        decide (0 < requiredVotes g.players) &&
        decide (requiredVotes g.players ≤ (votesThisRound g).length + 1)) := by
  apply submitVoteTransaction_not_invalid_ok
  intro hinv
  rcases hinv with h | h | h | h | h | h
  · exact h hst
  · exact h hph
  · exact hne h
  · exact h hv
  · exact h ht
  · obtain ⟨x, hx, hxv, hxr⟩ := h
    exact hnv x hx hxr hxv

/-- C10: `_submit_vote_transaction` never inspects `isEliminated` or
`isImpostor` when validating the voter — a vote from an eliminated (or
impostor) participant that meets the remaining preconditions is recorded, and
it counts toward `votesSoFarThisRound` in the trigger test even though
`requiredVotes` counts only non-eliminated non-impostor players. -/
theorem eliminated_voter_accepted (g : GameState) (v t : String) (p : Player)
    (hst : g.status = "in_progress") (hph : g.roundPhase = "VOTING")
    (hp : p ∈ g.players) (hpuid : p.uid = v)
    (hflag : p.isEliminated = true ∨ p.isImpostor = true)
    (ht : t ∈ playerUids g.players) (hne : v ≠ t)
    (hnv : ∀ x ∈ g.votes, x.round = g.currentRound → x.voterId ≠ v) :
    submitVoteTransaction (some g) v t =
      .ok ({ g with votes := g.votes ++ [⟨v, t, g.currentRound⟩] },
        decide (0 < requiredVotes g.players) &&
        decide (requiredVotes g.players ≤ (votesThisRound g).length + 1)) :=
  submitVoteTransaction_step g v t hst hph
    (hpuid ▸ List.mem_map_of_mem Player.uid hp) ht hne hnv

theorem eliminated_voter_accepted_witness :
    submitVoteTransaction (some elimVoterGame) "e" "h" =
      .ok ({ elimVoterGame with
        votes := elimVoterGame.votes ++ [⟨"e", "h", elimVoterGame.currentRound⟩] },
        decide (0 < requiredVotes elimVoterGame.players) &&
        decide (requiredVotes elimVoterGame.players ≤
          (votesThisRound elimVoterGame).length + 1)) ∧
    (decide (0 < requiredVotes elimVoterGame.players) &&
      decide (requiredVotes elimVoterGame.players ≤
        (votesThisRound elimVoterGame).length + 1)) = true :=
  ⟨eliminated_voter_accepted elimVoterGame "e" "h" ⟨"e", "Eel", false, true⟩
      rfl rfl (by decide) rfl (Or.inl rfl) (by decide) (by decide) (by decide),
   by decide⟩

theorem runVotes_spec : ∀ (w : List (String × String)) (g : GameState),
    g.status = "in_progress" → g.roundPhase = "VOTING" →
    (∀ p ∈ w, p.1 ∈ playerUids g.players ∧ p.2 ∈ playerUids g.players ∧
      p.1 ≠ p.2) →
    (w.map Prod.fst).Nodup →
    (∀ p ∈ w, ∀ x ∈ g.votes, x.round = g.currentRound → x.voterId ≠ p.1) →
    runVotes g w =
      .ok ({ g with
          votes := g.votes ++ w.map (fun p => ⟨p.1, p.2, g.currentRound⟩) },
        (List.range w.length).map (fun i =>
          decide (0 < requiredVotes g.players) &&
          decide (requiredVotes g.players ≤ (votesThisRound g).length + i + 1))) := by
  intro w
  induction w with
  | nil =>
    intro g _ _ _ _ _
    simp [runVotes]
  | cons p rest ih =>
    intro g hst hph hmem hnd hnew
    obtain ⟨hv, ht, hne⟩ := hmem p (List.mem_cons_self p rest)
    have hstep := submitVoteTransaction_step g p.1 p.2 hst hph hv ht hne
      (fun x hx hr => hnew p (List.mem_cons_self p rest) x hx hr)
    set g1 : GameState :=
      { g with votes := g.votes ++ [⟨p.1, p.2, g.currentRound⟩] } with hg1
    have hhead : p.1 ∉ rest.map Prod.fst := by
      simp only [List.map_cons, List.nodup_cons] at hnd
      exact hnd.1
    have hnew1 : ∀ q ∈ rest, ∀ x ∈ g1.votes,
        x.round = g1.currentRound → x.voterId ≠ q.1 := by
      intro q hq x hx hr
      rcases List.mem_append.mp hx with hx' | hx'
      · exact hnew q (List.mem_cons_of_mem p hq) x hx' hr
      · have hx2 : x = ⟨p.1, p.2, g.currentRound⟩ := by
          simpa using hx'
        subst hx2
        intro hEq
        apply hhead
        have hq1 : p.1 = q.1 := hEq
        rw [hq1]
        exact List.mem_map_of_mem Prod.fst hq
    have hrec := ih g1 hst hph
      (fun q hq => hmem q (List.mem_cons_of_mem p hq))
      (by simp only [List.map_cons, List.nodup_cons] at hnd; exact hnd.2)
      hnew1
    have hvtr : votesThisRound g1 = votesThisRound g ++ [⟨p.1, p.2, g.currentRound⟩] := by
      simp [votesThisRound, hg1, List.filter_append]
    simp only [runVotes, hstep, hrec]
    refine congrArg Except.ok (Prod.ext ?_ ?_)
    · show ({ g1 with
        votes := g1.votes ++ rest.map (fun q => ⟨q.1, q.2, g1.currentRound⟩) } :
          GameState) =
        { g with
          votes := g.votes ++ (p :: rest).map (fun q => ⟨q.1, q.2, g.currentRound⟩) }
      simp [hg1]
    · show (decide (0 < requiredVotes g.players) &&
          decide (requiredVotes g.players ≤ (votesThisRound g).length + 1)) ::
        (List.range rest.length).map (fun i =>
          decide (0 < requiredVotes g1.players) &&
          decide (requiredVotes g1.players ≤ (votesThisRound g1).length + i + 1)) =
        (List.range (p :: rest).length).map (fun i =>
          decide (0 < requiredVotes g.players) &&
          decide (requiredVotes g.players ≤ (votesThisRound g).length + i + 1))
      have hlen1 : (votesThisRound g1).length = (votesThisRound g).length + 1 := by
        simp [hvtr]
      have hreq1 : requiredVotes g1.players = requiredVotes g.players := rfl
      rw [List.length_cons, List.range_succ_eq_map, List.map_cons, List.map_map]
      congr 1
      apply List.map_congr_left
      intro i _
      simp only [Function.comp, hreq1, hlen1]
      have harith : (votesThisRound g).length + 1 + i + 1 =
          (votesThisRound g).length + (i + 1) + 1 := by omega
      rw [harith]

theorem range_map_threshold (n : Nat) (hn : 0 < n) :
    (List.range n).map (fun i => decide (n ≤ i + 1)) =
      List.replicate (n - 1) false ++ [true] := by
  cases n with
  | zero => omega
  | succ m =>
    rw [List.range_succ, List.map_append]
    simp only [Nat.succ_sub_one, List.map_cons, List.map_nil]
    congr 1
    · refine List.eq_replicate_iff.mpr ⟨by simp, ?_⟩
      intro b hb
      simp only [List.mem_map, List.mem_range] at hb
      obtain ⟨i, hi, hbi⟩ := hb
      rw [← hbi]
      simp only [decide_eq_false_iff_not]
      omega
    · simp

/-- C1: starting from a VOTING round with no votes recorded yet, a serialized
sequence of `_submit_vote_transaction` commits cast by exactly the N required
voters (the non-eliminated non-impostor players, N = requiredVotes > 0) all
succeed, and exactly one of them — the last, the one whose post-write vote
count for the round first reaches `requiredVotes` — returns the "trigger
tally" signal; every other transaction returns "no trigger". -/
theorem exactly_once_trigger (g : GameState) (w : List (String × String))
    (hst : g.status = "in_progress") (hph : g.roundPhase = "VOTING")
    (hvoters : List.Perm (w.map Prod.fst) (playerUids (requiredPlayers g.players)))
    (hnd : (w.map Prod.fst).Nodup)
    (htargets : ∀ p ∈ w, p.2 ∈ playerUids g.players ∧ p.1 ≠ p.2)
    (hclean : votesThisRound g = [])
    (hpos : 0 < requiredVotes g.players) :
    runVotes g w =
      .ok ({ g with
          votes := g.votes ++ w.map (fun p => ⟨p.1, p.2, g.currentRound⟩) },
        List.replicate (w.length - 1) false ++ [true]) := by
  have hsub : ∀ u, u ∈ playerUids (requiredPlayers g.players) →
      u ∈ playerUids g.players := by
    intro u hu
    simp only [playerUids, requiredPlayers, List.mem_map] at hu ⊢
    obtain ⟨p, hp, hpu⟩ := hu
    exact ⟨p, (List.mem_filter.mp hp).1, hpu⟩
  have hmem : ∀ p ∈ w, p.1 ∈ playerUids g.players ∧
      p.2 ∈ playerUids g.players ∧ p.1 ≠ p.2 := by
    intro p hp
    exact ⟨hsub p.1 (hvoters.mem_iff.mp (List.mem_map_of_mem Prod.fst hp)),
      (htargets p hp).1, (htargets p hp).2⟩
  have hnew : ∀ p ∈ w, ∀ x ∈ g.votes,
      x.round = g.currentRound → x.voterId ≠ p.1 := by
    intro p _ x hx hr
    have hmemv : x ∈ votesThisRound g := by
      simp [votesThisRound, List.mem_filter, hx, hr]
    rw [hclean] at hmemv
    cases hmemv
  have hlen : w.length = requiredVotes g.players := by
    have h1 : (w.map Prod.fst).length =
        (playerUids (requiredPlayers g.players)).length := hvoters.length_eq
    simpa [requiredVotes, playerUids] using h1
  rw [runVotes_spec w g hst hph hmem hnd hnew]
  refine congrArg Except.ok (Prod.ext rfl ?_)
  have h0 : (votesThisRound g).length = 0 := by rw [hclean]; rfl
  have hT : decide (0 < requiredVotes g.players) = true := decide_eq_true hpos
  calc (List.range w.length).map (fun i =>
        decide (0 < requiredVotes g.players) &&
        decide (requiredVotes g.players ≤ (votesThisRound g).length + i + 1))
      = (List.range w.length).map (fun i => decide (w.length ≤ i + 1)) := by
        apply List.map_congr_left
        intro i _
        rw [hT, Bool.true_and, h0, Nat.zero_add, ← hlen]
    _ = List.replicate (w.length - 1) false ++ [true] :=
        range_map_threshold w.length (by rw [hlen]; exact hpos)

theorem exactly_once_trigger_witness :
    runVotes votingGame [("h", "ai1"), ("p2", "ai1")] =
      .ok ({ votingGame with
          votes := votingGame.votes ++
            [⟨"h", "ai1", votingGame.currentRound⟩,
             ⟨"p2", "ai1", votingGame.currentRound⟩] },
        [false, true]) := by
  have h := exactly_once_trigger votingGame [("h", "ai1"), ("p2", "ai1")]
    rfl rfl (by decide) (by decide) (by decide) (by decide) (by decide)
  simpa using h

theorem le_foldr_max (l : List Nat) : ∀ x ∈ l, x ≤ l.foldr max 0 := by
  induction l with
  | nil => intro x hx; cases hx
  | cons a l ih =>
    intro x hx
    rcases List.mem_cons.mp hx with hx | hx
    · rw [hx]
      exact le_max_left a (l.foldr max 0)
    · exact le_trans (ih x hx) (le_max_right a (l.foldr max 0))

theorem foldr_max_mem (l : List Nat) (h : l ≠ []) : l.foldr max 0 ∈ l := by
  induction l with
  | nil => cases h rfl
  | cons a l ih =>
    cases l with
    | nil => simp
    | cons b m =>
      rcases max_choice a ((b :: m).foldr max 0) with h1 | h1
      · rw [List.foldr_cons, h1]
        exact List.mem_cons_self a (b :: m)
      · rw [List.foldr_cons, h1]
        exact List.mem_cons_of_mem a (ih (by simp))

theorem mem_topTargets (vs : List Vote) (u : String) :
    u ∈ topTargets vs ↔
      u ∈ voteTargets vs ∧ voteCount vs u = maxVoteCount vs := by
  simp [topTargets, List.mem_filter]

theorem voteCount_le_max (vs : List Vote) (u : String)
    (hu : u ∈ voteTargets vs) : voteCount vs u ≤ maxVoteCount vs :=
  le_foldr_max _ _ (List.mem_map_of_mem (voteCount vs) hu)

theorem voteTargets_ne_nil {vs : List Vote} (h : vs ≠ []) :
    voteTargets vs ≠ [] := by
  cases vs with
  | nil => cases h rfl
  | cons v l =>
    have hmem : v.targetId ∈ voteTargets (v :: l) := by
      rw [voteTargets, List.mem_dedup]
      exact List.mem_map_of_mem Vote.targetId (List.mem_cons_self v l)
    intro he
    rw [he] at hmem
    cases hmem

theorem topTargets_ne_nil {vs : List Vote} (h : vs ≠ []) :
    topTargets vs ≠ [] := by
  have htg := voteTargets_ne_nil h
  have hmm : maxVoteCount vs ∈ (voteTargets vs).map (voteCount vs) :=
    foldr_max_mem _ (by simpa using htg)
  rw [List.mem_map] at hmm
  obtain ⟨t, ht, hct⟩ := hmm
  intro he
  have hmem : t ∈ topTargets vs := (mem_topTargets vs t).mpr ⟨ht, hct⟩
  rw [he] at hmem
  cases hmem

theorem topTargets_nodup (vs : List Vote) : (topTargets vs).Nodup :=
  List.Nodup.filter _ (List.nodup_dedup _)

theorem nodup_all_eq_singleton {l : List String} {t : String} (hnd : l.Nodup)
    (hne : l ≠ []) (hall : ∀ x ∈ l, x = t) : l = [t] := by
  cases l with
  | nil => cases hne rfl
  | cons a m =>
    have ha : a = t := hall a (List.mem_cons_self a m)
    subst ha
    cases m with
    | nil => rfl
    | cons b k =>
      have hb : b = a := hall b (by simp)
      rw [List.nodup_cons] at hnd
      exact absurd (List.mem_cons.mpr (Or.inl hb.symm)) hnd.1

theorem eliminationTarget_eq_some (vs : List Vote) (t : String) :
    eliminationTarget vs = some t ↔ vs ≠ [] ∧ soleTopTarget vs t := by
  constructor
  · intro h
    unfold eliminationTarget at h
    by_cases he : vs.isEmpty
    · rw [if_pos he] at h; cases h
    · rw [if_neg he] at h
      have hne : vs ≠ [] := by simpa [List.isEmpty_iff] using he
      refine ⟨hne, ?_⟩
      by_cases hc : (voteTargets vs).length = 1 ∨ (topTargets vs).length = 1
      · rw [if_pos hc] at h
        have hlen1 : (topTargets vs).length = 1 := by
          rcases hc with hc | hc
          · have hle : (topTargets vs).length ≤ (voteTargets vs).length :=
              (List.filter_sublist _).length_le
            have hpos : 0 < (topTargets vs).length :=
              List.length_pos.mpr (topTargets_ne_nil hne)
            omega
          · exact hc
        obtain ⟨a, hla⟩ := List.length_eq_one.mp hlen1
        rw [hla] at h
        have hat : a = t := by
          simpa using h
        subst hat
        have hmem : a ∈ topTargets vs := by rw [hla]; exact List.mem_cons_self a []
        obtain ⟨htg, hmax⟩ := (mem_topTargets vs a).mp hmem
        refine ⟨htg, ?_⟩
        intro u hu hut
        have hle : voteCount vs u ≤ maxVoteCount vs := voteCount_le_max vs u hu
        have hne2 : voteCount vs u ≠ maxVoteCount vs := by
          intro heq
          have : u ∈ topTargets vs := (mem_topTargets vs u).mpr ⟨hu, heq⟩
          rw [hla] at this
          rcases List.mem_singleton.mp this with h'
          exact hut h'
        omega
      · rw [if_neg hc] at h; cases h
  · rintro ⟨hne, htmem, hbeat⟩
    have hmax : maxVoteCount vs = voteCount vs t := by
      have h1 : voteCount vs t ≤ maxVoteCount vs := voteCount_le_max vs t htmem
      have hmm : maxVoteCount vs ∈ (voteTargets vs).map (voteCount vs) :=
        foldr_max_mem _ (by simpa using voteTargets_ne_nil hne)
      rw [List.mem_map] at hmm
      obtain ⟨u, hu, hcu⟩ := hmm
      by_cases hut : u = t
      · rw [hut] at hcu; omega
      · have := hbeat u hu hut
        omega
    have htop : topTargets vs = [t] := by
      apply nodup_all_eq_singleton (topTargets_nodup vs) (topTargets_ne_nil hne)
      intro u hu
      obtain ⟨hu1, hu2⟩ := (mem_topTargets vs u).mp hu
      by_contra hut
      have := hbeat u hu1 hut
      omega
    unfold eliminationTarget
    rw [if_neg (by simpa [List.isEmpty_iff] using hne),
      if_pos (Or.inr (by rw [htop]; rfl))]
    rw [htop]
    rfl

theorem markFirstEliminated_eq_map (uid : String) :
    ∀ (ps : List Player), (playerUids ps).Nodup →
      markFirstEliminated ps uid = ps.map (fun p =>
        if p.uid = uid then { p with isEliminated := true } else p) := by
  intro ps
  induction ps with
  | nil => intro _; rfl
  | cons p ps ih =>
    intro hnd
    rw [playerUids, List.map_cons, List.nodup_cons] at hnd
    by_cases hp : p.uid = uid
    · rw [markFirstEliminated, if_pos hp, List.map_cons, if_pos hp]
      congr 1
      have hall : ∀ q ∈ ps,
          (if q.uid = uid then ({ q with isEliminated := true } : Player) else q) = q := by
        intro q hq
        rw [if_neg]
        intro hqu
        apply hnd.1
        have hm : q.uid ∈ ps.map Player.uid := List.mem_map_of_mem Player.uid hq
        rw [hqu, ← hp] at hm
        exact hm
      rw [List.map_congr_left hall]
      simp
    · rw [markFirstEliminated, if_neg hp, List.map_cons, if_neg hp]
      congr 1
      exact ih hnd.2

/-- C2: `tally_votes` marks a player eliminated iff at least one vote was
cast this round and that player is the sole top target — its count strictly
exceeds every other distinct target's (vacuously so when it is the only
distinct target).  A tie for first place, or zero votes, eliminates nobody. -/
theorem elimination_rule (g : GameState) (now : Nat) (q : String)
    (hst : g.status = "in_progress") (hph : g.roundPhase = "VOTING")
    (hnd : (playerUids g.players).Nodup) :
    ∃ g', tally_votes (some g) now q = .ok g' ∧
      g'.players = g.players.map (fun p =>
        { p with isEliminated := p.isEliminated ||
            decide (votesThisRound g ≠ [] ∧
              soleTopTarget (votesThisRound g) p.uid) }) := by
  obtain ⟨g', hrun, hpl⟩ := tally_votes_players g now q hst hph
  refine ⟨g', hrun, ?_⟩
  rw [hpl]
  unfold elimPlayers
  cases helim : eliminationTarget (votesThisRound g) with
  | none =>
    have hall : ∀ p : Player,
        decide (votesThisRound g ≠ [] ∧
          soleTopTarget (votesThisRound g) p.uid) = false := by
      intro p
      rw [decide_eq_false_iff_not]
      intro hc
      have h := (eliminationTarget_eq_some (votesThisRound g) p.uid).mpr hc
      rw [helim] at h
      cases h
    symm
    have hid : ∀ p ∈ g.players,
        ({ p with
            isEliminated := p.isEliminated ||
              decide (votesThisRound g ≠ [] ∧
                soleTopTarget (votesThisRound g) p.uid) } : Player) = p := by
      intro p _
      rw [hall p, Bool.or_false]
    rw [List.map_congr_left hid]
    simp
  | some uid =>
    show markFirstEliminated g.players uid = _
    rw [markFirstEliminated_eq_map uid g.players hnd]
    apply List.map_congr_left
    intro p _
    have hiff := eliminationTarget_eq_some (votesThisRound g) p.uid
    by_cases hpu : p.uid = uid
    · rw [if_pos hpu]
      have hsole : votesThisRound g ≠ [] ∧
          soleTopTarget (votesThisRound g) p.uid :=
        hiff.mp (by rw [helim, hpu])
      rw [decide_eq_true hsole, Bool.or_true]
    · rw [if_neg hpu]
      have hdec : decide (votesThisRound g ≠ [] ∧
          soleTopTarget (votesThisRound g) p.uid) = false := by
        rw [decide_eq_false_iff_not]
        intro hc
        have h := hiff.mpr hc
        rw [helim] at h
        exact hpu (Option.some.inj h).symm
      rw [hdec, Bool.or_false]

theorem elimination_rule_witness :
    ∃ g', tally_votes (some majorityGame) 0 "q" = .ok g' ∧
      g'.players = majorityGame.players.map (fun p =>
        { p with isEliminated := p.isEliminated ||
            decide (votesThisRound majorityGame ≠ [] ∧
              soleTopTarget (votesThisRound majorityGame) p.uid) }) :=
  elimination_rule majorityGame 0 "q" rfl rfl (by decide)

theorem applyOp_preserves (g g' : GameState) (op : GameOp)
    (h : applyOp g op = .ok g') (hq : roundsInvariant g) :
    roundsInvariant g' ∧ g.currentRound ≤ g'.currentRound ∧
      g'.currentRound ≤ g.currentRound + 1 := by
  cases op with
  | joinOp u =>
    simp only [applyOp, join_game] at h
    rw [if_pos hq.1] at h
    cases h
  | startOp u a n t q =>
    simp only [applyOp, start_game] at h
    by_cases hh : g.hostId ≠ u
    · rw [if_pos hh] at h; cases h
    · rw [if_neg hh, if_pos hq.1] at h; cases h
  | submitAnswerOp u ans t =>
    simp only [applyOp, submit_answer] at h
    split at h
    next => cases h
    next =>
      split at h
      next => cases h
      next =>
        split at h
        next => cases h
        next =>
          split at h
          next => cases h
          next =>
            split at h
            next => cases h
            next =>
              cases h
              exact ⟨⟨hq.1, hq.2⟩, Nat.le_refl _, Nat.le_succ _⟩
  | tallyAnswersOp t q =>
    simp only [applyOp, tally_answers] at h
    split at h
    next => cases h
    next =>
      split at h
      next =>
        cases h
        exact ⟨hq, Nat.le_refl _, Nat.le_succ _⟩
      next =>
        have hadv : (Except.ok (tallyAnswersAdvance g t q) :
              Except String GameState) = .ok g' →
            roundsInvariant g' ∧ g.currentRound ≤ g'.currentRound ∧
              g'.currentRound ≤ g.currentRound + 1 := by
          intro hx
          cases hx
          unfold tallyAnswersAdvance
          split
          next =>
            refine ⟨⟨hq.1, ?_⟩, Nat.le_succ _, Nat.le_refl _⟩
            simp [hq.2]
          next =>
            exact ⟨⟨hq.1, hq.2⟩, Nat.le_refl _, Nat.le_succ _⟩
        split at h
        next =>
          split at h
          next => cases h
          next => exact hadv h
        next => exact hadv h
  | tallyVotesOp t q =>
    simp only [applyOp, tally_votes] at h
    split at h
    next => cases h
    next hst' =>
      split at h
      next =>
        cases h
        exact ⟨hq, Nat.le_refl _, Nat.le_succ _⟩
      next =>
        have hst2 : g.status = "in_progress" := by
          simpa using hst'
        split at h
        next =>
          cases h
          refine ⟨⟨?_, hq.2⟩, Nat.le_refl _, Nat.le_succ _⟩
          show ("finished" : String) ≠ "waiting"
          decide
        next =>
          split at h
          next =>
            cases h
            refine ⟨⟨?_, hq.2⟩, Nat.le_refl _, Nat.le_succ _⟩
            show ("finished" : String) ≠ "waiting"
            decide
          next =>
            cases h
            refine ⟨⟨?_, ?_⟩, Nat.le_succ _, Nat.le_refl _⟩
            · show g.status ≠ "waiting"
              exact hq.1
            · simp [hq.2]
  | submitVoteOp v tgt =>
    simp only [applyOp] at h
    cases hres : submitVoteTransaction (some g) v tgt with
    | error e =>
      rw [hres] at h
      cases h
    | ok pr =>
      rw [hres] at h
      simp only [Except.map] at h
      have hshape := submitVoteTransaction_not_invalid_ok g v tgt
        (submitVoteTransaction_ok_not_invalid g v tgt pr hres)
      rw [hres] at hshape
      have hpr := Except.ok.inj hshape
      cases h
      rw [hpr]
      exact ⟨⟨hq.1, hq.2⟩, Nat.le_refl _, Nat.le_succ _⟩

theorem reachable_invariant (g0 g : GameState) (h0 : roundsInvariant g0)
    (hr : Reachable g0 g) : roundsInvariant g := by
  induction hr with
  | refl => exact h0
  | step op hre hok ih => exact (applyOp_preserves _ _ op hok ih).1

/-- C8: once `start_game` succeeds, every reachable state satisfies
`rounds.length = currentRound`, and every further successful operation never
decreases `currentRound` (each advance adds exactly 1 and appends exactly one
round entry, so the length equality is preserved). -/
theorem round_bookkeeping (gpre : GameState) (u : String) (aiU : Nat → String)
    (names : List String) (t0 : Nat) (q0 : String) (g0 : GameState)
    (hstart : start_game (some gpre) u aiU names t0 q0 = .ok g0) :
    ∀ g, Reachable g0 g →
      g.rounds.length = g.currentRound ∧
      ∀ op g', applyOp g op = .ok g' →
        g.currentRound ≤ g'.currentRound ∧ g'.currentRound ≤ g.currentRound + 1 ∧
        g'.rounds.length = g'.currentRound := by
  have h0 : roundsInvariant g0 := by
    simp only [start_game] at hstart
    by_cases hh : gpre.hostId ≠ u
    · rw [if_pos hh] at hstart; cases hstart
    · rw [if_neg hh] at hstart
      by_cases hw : gpre.status ≠ "waiting"
      · rw [if_pos hw] at hstart; cases hstart
      · rw [if_neg hw] at hstart
        cases hstart
        refine ⟨?_, rfl⟩
        show ("in_progress" : String) ≠ "waiting"
        decide
  intro g hr
  have hq := reachable_invariant g0 g h0 hr
  refine ⟨hq.2, ?_⟩
  intro op g' hop
  have hstep := applyOp_preserves g g' op hop hq
  exact ⟨hstep.2.1, hstep.2.2, hstep.1.2⟩

theorem round_bookkeeping_witness :
    startedGame.rounds.length = startedGame.currentRound :=
  (round_bookkeeping preGame "h" (fun _ => "ai9") ["A", "B"] 0 "q1" startedGame
    rfl startedGame Reachable.refl).1

end AIImposter
